import Mathlib

/-!
Verification of the windows-sender audio pipeline (`src/windows-sender/src/main.rs`).

Shallow embedding conventions:
* Machine integers are `Nat`/`Int` with explicit `% 2^w` where the Rust code wraps
  (`u32::wrapping_add`, `as u8`/`as u16`/`as u64` casts).
* `i16` samples are `Int` values; `i16::to_le_bytes` is two's-complement encoding.
* `Instant` timestamps are abstract `Nat` values (only copied and compared, never
  computed with, in the code under verification).
* Fallible Rust code (`Result`, `bail!`, `?`) becomes `Except String`.
* The blocking receive loop of `send_loop` is modelled as a fold over the finite
  list of chunks the channel delivers; each iteration of the Rust `loop` body is
  `processChunk`.
* `f32` values are modelled as exact fractions `(num : Int, den : Nat)`; the one
  rounding operation the code performs (the `f32` multiply in the sample
  converters) is modelled by IEEE-754 binary32 round-to-nearest-even
  (`roundF32`), restricted to the normal range, which covers every value the
  converters can produce from finite inputs in `[-2, 2]`.
-/

/-- Little-endian bytes of an `i16` sample, as in `i16::to_le_bytes`
(`src/main.rs:490`): the sample is reinterpreted as its two's-complement
16-bit pattern and split into low and high byte. -/
def toLE16 (s : Int) : List Nat :=
  [(s.emod 65536).toNat % 256, (s.emod 65536).toNat / 256]

/-- The little-endian byte stream of a list of `i16` samples, as written into a
payload by the loop at `src/main.rs:488-493`. -/
def encodeLE (l : List Int) : List Nat :=
  (l.map toLE16).flatten

/-- `u16::to_le_bytes` (values are taken mod 2^16, matching an `as u16` cast). -/
def le2 (n : Nat) : List Nat :=
  [n % 256, n / 256 % 256]

/-- `u32::to_le_bytes` (values are taken mod 2^32). -/
def le4 (n : Nat) : List Nat :=
  [n % 256, n / 256 % 256, n / 65536 % 256, n / 16777216 % 256]

/-- `u64::to_le_bytes` (values are taken mod 2^64). -/
def le8 (n : Nat) : List Nat :=
  [n % 256, n / 256 % 256, n / 65536 % 256, n / 16777216 % 256,
   n / 4294967296 % 256, n / 1099511627776 % 256,
   n / 281474976710656 % 256, n / 72057594037927936 % 256]

/-- Little-endian decoding of a byte list (used to state header round-trips). -/
def leDec (bytes : List Nat) : Nat :=
  bytes.foldr (fun b acc => b + 256 * acc) 0

/-- A chunk delivered from a capture adapter to the repacketizer
(`struct CaptureChunk`, `src/main.rs:100-103`). -/
structure CaptureChunk where
  samples : List Int
  captured_at : Nat
deriving DecidableEq

/-- One emitted network frame of the repacketizer: the sequence number it was
built and sent with, the capture timestamp its latency sample was measured
against (none when `acc_capture` was empty), and the PCM payload bytes. -/
structure PcmFrame where
  seq : Nat
  capture_time : Option Nat
  payload : List Nat
deriving DecidableEq

/-- The mutable state of `send_loop` (`src/main.rs:465-467`): the `u32`
sequence counter, the sample accumulator `acc`, and the pending
`(sample count, captured_at)` records `acc_capture`. -/
structure SendState where
  seq : Nat
  acc : List Int
  acc_capture : List (Nat × Nat)
deriving DecidableEq

/-- Result of draining the inner `while` loop of `send_loop`. -/
structure EmitResult where
  seq : Nat
  acc : List Int
  acc_capture : List (Nat × Nat)
  frames : List PcmFrame
deriving DecidableEq

/-- The `while samples_to_consume > 0` loop of `consume_capture_time`
(`src/main.rs:531-540`): pop front records; a record larger than what remains
to consume is pushed back with the consumed part subtracted. -/
def cctLoop : List (Nat × Nat) → Nat → List (Nat × Nat)
  | q, 0 => q
  | [], _ + 1 => []
  | (count, t) :: rest, n + 1 =>
    if n + 1 < count then (count - (n + 1), t) :: rest
    else cctLoop rest (n + 1 - count)

/-- `consume_capture_time` (`src/main.rs:526-542`): returns the `captured_at`
of the front record (`None` on an empty queue) together with the updated
queue after consuming `n` samples worth of records. -/
def consume_capture_time (acc_capture : List (Nat × Nat)) (n : Nat) :
    Option Nat × List (Nat × Nat) :=
  (acc_capture.head?.map Prod.snd, cctLoop acc_capture n)

/-- The payload-filling loop of `send_loop` (`src/main.rs:488-493`): pop `n`
samples off the front of `acc` (`pop_front().unwrap_or(0)`), encoding each as
two little-endian bytes.  Returns the payload bytes and the remaining `acc`. -/
def popPayload : Nat → List Int → List Nat × List Int
  | 0, acc => ([], acc)
  | n + 1, [] => (toLE16 0 ++ (popPayload n []).1, [])
  | n + 1, s :: rest =>
    let pr := popPayload n rest
    (toLE16 s ++ pr.1, pr.2)

theorem popPayload_snd (n : Nat) (l : List Int) : (popPayload n l).2 = l.drop n := by
  induction n generalizing l with
  | zero => simp [popPayload]
  | succ n ih =>
    cases l with
    | nil => simp [popPayload]
    | cons s rest => simpa [popPayload] using ih rest

/-- The `while acc.len() >= samples_per_packet` emission loop of `send_loop`
(`src/main.rs:485-522`).  Each iteration consumes a capture time, pops one
payload, and increments `seq` with wraparound at 2^32.  The extra `0 < spp`
guard makes the model total: with `samples_per_packet = 0` the Rust loop never
terminates (its condition `acc.len() >= 0` is always true), a configuration
outside every claim considered here. -/
def emitLoop (spp seq : Nat) (acc : List Int) (acc_capture : List (Nat × Nat)) :
    EmitResult :=
  if h : 0 < spp ∧ spp ≤ acc.length then
    let ct := consume_capture_time acc_capture spp
    let pp := popPayload spp acc
    let rest := emitLoop spp ((seq + 1) % 4294967296) pp.2 ct.2
    { rest with frames := ⟨seq, ct.1, pp.1⟩ :: rest.frames }
  else
    ⟨seq, acc, acc_capture, []⟩
termination_by acc.length
decreasing_by
  simp only [popPayload_snd, List.length_drop]
  omega

/-- One iteration of the outer `loop` of `send_loop` (`src/main.rs:469-523`):
receive a chunk, append its samples to `acc`, record `(len, captured_at)` in
`acc_capture` when the chunk is non-empty, then drain the emission loop. -/
def processChunk (spp : Nat) (st : SendState) (c : CaptureChunk) :
    SendState × List PcmFrame :=
  let acc := st.acc ++ c.samples
  let cap :=
    if 0 < c.samples.length then st.acc_capture ++ [(c.samples.length, c.captured_at)]
    else st.acc_capture
  let r := emitLoop spp st.seq acc cap
  (⟨r.seq, r.acc, r.acc_capture⟩, r.frames)

/-- `send_loop` (`src/main.rs:452-524`) run on the finite list of chunks the
capture channel delivers, from state `st`; returns the final state and all
emitted frames in order. -/
def send_loop (spp : Nat) (st : SendState) : List CaptureChunk → SendState × List PcmFrame
  | [] => (st, [])
  | c :: cs =>
    let pr := processChunk spp st c
    let rr := send_loop spp pr.1 cs
    (rr.1, pr.2 ++ rr.2)

/-- The state `send_loop` starts from (`src/main.rs:465-467`): `seq = 0`,
empty accumulator, empty capture-record queue. -/
def initState : SendState := ⟨0, [], []⟩

/-- `samples_per_channel` as computed in `main` (`src/main.rs:162`):
`((sample_rate as u64 * frame_ms as u64) / 1000) as usize`. -/
def samples_per_channel (sample_rate frame_ms : Nat) : Nat :=
  sample_rate * frame_ms / 1000

/-- `build_packet` (`src/main.rs:544-573`).  The system clock value
`send_time_us` (microseconds since the Unix epoch, already truncated to `u64`
by the code's `as u64`) is passed as an argument; a clock before the epoch is
the only other failure of the Rust function and corresponds to no `Nat`
argument, so the model takes the clock as given.  `channels` is a `u8` in the
source, hence the `% 256`; the multi-byte encoders take their argument modulo
the field width exactly as the `as u16`/`to_le_bytes` casts do. -/
def build_packet (seq sample_rate channels samples_per_ch send_time_us : Nat)
    (payload : List Nat) : Except String (List Nat) :=
  if 65535 < payload.length then Except.error "payload too large"
  else
    Except.ok
      ([65, 85, 68, 48] ++ [1] ++ [0] ++ [channels % 256] ++ [0] ++
        le4 sample_rate ++ le4 seq ++ le8 send_time_us ++
        le2 samples_per_ch ++ le2 payload.length ++ payload)

/-- Read a `len`-byte little-endian field of a packet at byte offset `off`. -/
def parse_field (pkt : List Nat) (off len : Nat) : Nat :=
  leDec ((pkt.drop off).take len)

def parse_magic (pkt : List Nat) : List Nat := pkt.take 4

def parse_version (pkt : List Nat) : Nat := parse_field pkt 4 1

def parse_codec (pkt : List Nat) : Nat := parse_field pkt 5 1

def parse_channels (pkt : List Nat) : Nat := parse_field pkt 6 1

def parse_reserved (pkt : List Nat) : Nat := parse_field pkt 7 1

def parse_sample_rate (pkt : List Nat) : Nat := parse_field pkt 8 4

def parse_seq (pkt : List Nat) : Nat := parse_field pkt 12 4

def parse_send_time (pkt : List Nat) : Nat := parse_field pkt 16 8

def parse_samples_per_ch (pkt : List Nat) : Nat := parse_field pkt 24 2

def parse_payload_len (pkt : List Nat) : Nat := parse_field pkt 26 2

/-- The TCP sink closure (`src/main.rs:214-224`): fail when the packet length
does not fit the `u16` prefix, otherwise the bytes put on the wire are the
2-byte little-endian length followed by the packet. -/
def stream_sink_wire (packet : List Nat) : Except String (List Nat) :=
  if 65535 < packet.length then
    Except.error "packet too large for TCP length prefix"
  else
    Except.ok (le2 packet.length ++ packet)

/-- The telemetry counters touched by the capture path
(`struct SenderStats`, `src/main.rs:27-43`, restricted to the fields
`enqueue_audio_chunk` updates). -/
structure SenderStats where
  captured_chunks : Nat
  captured_samples : Nat
  captured_nonzero_samples : Nat
  captured_abs_sum : Nat
  capture_drops : Nat
deriving DecidableEq

/-- Capacity of the bounded capture channel (`bounded::<CaptureChunk>(512)`,
`src/main.rs:147`). -/
def queueCapacity : Nat := 512

/-- `enqueue_audio_chunk` (`src/main.rs:417-450`).  The channel is modelled by
its buffered contents plus a `connected` flag; `try_send` succeeds when the
consumer is alive and the buffer holds fewer than `queueCapacity` chunks,
reports `Full` when the buffer is at capacity, and `Disconnected` (no counter
update) when the consumer is gone.  Empty chunks return before any counter is
touched.  The function is total: like `try_send`, it never blocks. -/
def enqueue_audio_chunk (stats : SenderStats) (queue : List CaptureChunk)
    (connected : Bool) (chunk : List Int) (now : Nat) :
    SenderStats × List CaptureChunk :=
  if chunk.isEmpty then (stats, queue)
  else
    let abs_sum := (chunk.map Int.natAbs).sum
    let nonzero := (chunk.filter (fun s => s != 0)).length
    let stats1 :=
      { stats with
        captured_samples := stats.captured_samples + chunk.length
        captured_abs_sum := stats.captured_abs_sum + abs_sum
        captured_nonzero_samples := stats.captured_nonzero_samples + nonzero }
    if !connected then (stats1, queue)
    else if queueCapacity ≤ queue.length then
      ({ stats1 with capture_drops := stats1.capture_drops + 1 }, queue)
    else
      ({ stats1 with captured_chunks := stats1.captured_chunks + 1 },
        queue ++ [⟨chunk, now⟩])

/-- Wrapping cast of an integer into `i16` range (an `as i16` cast from a
wider integer in Rust keeps the low 16 bits, two's complement). -/
def wrap_i16 (x : Int) : Int :=
  (x + 32768) % 65536 - 32768

/-- The `U16` branch of `build_input_stream` (`src/main.rs:602-606`):
`(*s as i32 - 32768) as i16`. -/
def cvtU16 (v : Nat) : Int :=
  wrap_i16 ((v : Int) - 32768)

/-- Fuel-driven floor of the base-2 logarithm (structural recursion so the
kernel can evaluate it). -/
def natLog2F : Nat → Nat → Nat
  | 0, _ => 0
  | fuel + 1, n => if n ≤ 1 then 0 else 1 + natLog2F fuel (n / 2)

/-- `⌊log₂ n⌋` for `n ≥ 1`. -/
def natLog2 (n : Nat) : Nat := natLog2F n n

/-- Fuel-driven ceiling of the base-2 logarithm. -/
def natClog2F : Nat → Nat → Nat
  | 0, _ => 0
  | fuel + 1, n => if n ≤ 1 then 0 else 1 + natClog2F fuel ((n + 1) / 2)

/-- `⌈log₂ n⌉` for `n ≥ 1`: the least `m` with `n ≤ 2^m`. -/
def natClog2 (n : Nat) : Nat := natClog2F n n

/-- For a positive fraction `n / d`: the exponent `e` with
`2^e ≤ n / d < 2^(e+1)`. -/
def ilog2Frac (n d : Nat) : Int :=
  if d ≤ n then (natLog2 (n / d) : Int)
  else -(natClog2 ((d + n - 1) / n) : Int)

/-- Round the non-negative fraction `n / d` to the nearest integer, ties to
even (the IEEE-754 default rounding). -/
def roundHalfEvenNat (n d : Nat) : Nat :=
  let f := n / d
  let r2 := 2 * (n - f * d)
  if r2 < d then f
  else if d < r2 then f + 1
  else if f % 2 = 0 then f else f + 1

/-- Round the positive fraction `n / d` to a 24-bit significand: the result is
the dyadic fraction (returned as numerator/denominator) closest to `n / d`
among those of the form `m * 2^(e-23)`, ties to even. -/
def roundPosFrac24 (n d : Nat) : Nat × Nat :=
  let e : Int := ilog2Frac n d
  let k : Int := 23 - e
  let scaled : Nat × Nat :=
    if 0 ≤ k then (n * 2 ^ k.toNat, d) else (n, d * 2 ^ (-k).toNat)
  let m := roundHalfEvenNat scaled.1 scaled.2
  if 0 ≤ k then (m, 2 ^ k.toNat) else (m * 2 ^ (-k).toNat, 1)

/-- IEEE-754 binary32 round-to-nearest-even of the exact fraction
`num / den` (`den > 0`), in the normal range (no overflow or subnormal
handling: every value arising in the claims is normal and far from the
range bounds).  Returns the rounded value as an exact fraction. -/
def roundF32 (num : Int) (den : Nat) : Int × Nat :=
  if num = 0 then (0, 1)
  else
    let r := roundPosFrac24 num.natAbs den
    (if num < 0 then -(r.1 : Int) else (r.1 : Int), r.2)

/-- `f32` division of exact values, used to model the literal
`1.0 / 32767.0`: the exact quotient rounded to binary32. -/
def fdiv32 (a : Int) (b : Nat) : Int × Nat := roundF32 a b

/-- `s.clamp(-1.0, 1.0)` on the exact fraction `num / den` (`den > 0`):
comparison and selection are exact in `f32`, so no rounding occurs. -/
def clampUnit (num : Int) (den : Nat) : Int × Nat :=
  if (den : Int) < num then (1, 1)
  else if num < -(den : Int) then (-1, 1)
  else (num, den)

/-- A Rust `as i16` cast from `f32`: truncate toward zero, saturating at the
`i16` bounds. -/
def f32_as_i16 (num : Int) (den : Nat) : Int :=
  let t : Int :=
    if 0 ≤ num then (num.toNat / den : Nat)
    else -(((-num).toNat / den : Nat) : Int)
  max (-32768) (min 32767 t)

/-- The float-to-PCM16 converter `(s.clamp(-1.0, 1.0) * i16::MAX as f32) as
i16`, used identically by the `F32` branch of `build_input_stream`
(`src/main.rs:621-624`) and by `desktop_capture_inner` (`src/main.rs:397-399`).
The input `f32` is given as the exact fraction `num / den`; the multiply by
`32767.0` is the one inexact `f32` operation and is modelled by `roundF32`. -/
def cvtF32 (num : Int) (den : Nat) : Int :=
  let c := clampUnit num den
  let p := roundF32 (c.1 * 32767) c.2
  f32_as_i16 p.1 p.2

/-- Outcome of the startup argument checks in `main`. -/
inductive StartupOutcome
  | listDevicesExitOk
  | frameMsRangeError
  | missingTargetIp
  | proceed
deriving DecidableEq

/-- The startup control flow of `main` (`src/main.rs:128-145`): the
`list_desktop_devices` branch returns `Ok(())` (process exit code 0, device
listing I/O abstracted) before the `frame_ms` range check and the `target_ip`
requirement are ever evaluated; those two checks run, in that order, only when
the flag is unset. -/
def main_startup (list_desktop_devices : Bool) (frame_ms : Nat)
    (target_ip : Option String) : StartupOutcome :=
  if list_desktop_devices then StartupOutcome.listDevicesExitOk
  else if ¬(1 ≤ frame_ms ∧ frame_ms ≤ 20) then StartupOutcome.frameMsRangeError
  else
    match target_ip with
    | none => StartupOutcome.missingTargetIp
    | some _ => StartupOutcome.proceed

theorem encodeLE_append (a b : List Int) :
    encodeLE (a ++ b) = encodeLE a ++ encodeLE b := by
  simp [encodeLE]

theorem encodeLE_length (l : List Int) : (encodeLE l).length = 2 * l.length := by
  induction l with
  | nil => simp [encodeLE]
  | cons s rest ih =>
    simp only [encodeLE, List.map_cons, List.flatten_cons, List.length_append,
      List.length_cons] at ih ⊢
    simp [toLE16] at ih ⊢
    omega

theorem popPayload_fst_of_le (n : Nat) (l : List Int) (h : n ≤ l.length) :
    (popPayload n l).1 = encodeLE (l.take n) := by
  induction n generalizing l with
  | zero => simp [popPayload, encodeLE]
  | succ n ih =>
    cases l with
    | nil => simp at h
    | cons s rest =>
      simp only [popPayload, List.take_succ_cons, encodeLE, List.map_cons,
        List.flatten_cons]
      have := ih rest (by simpa using h)
      simp only [encodeLE] at this
      rw [this]

/-- Fuel-bounded core of the emission-loop characterisation: from `seq < 2^32`
and a positive packet size, draining `acc` emits `⌊|acc| / spp⌋` frames whose
payloads concatenate to the little-endian encoding of the consumed prefix of
`acc`, leaves the remainder in `acc`, stamps consecutive sequence numbers
mod 2^32, and gives every payload exactly `spp * 2` bytes. -/
theorem emitLoop_spec_aux (spp : Nat) (hspp : 0 < spp) :
    ∀ (n seq : Nat) (acc : List Int) (cap : List (Nat × Nat)),
    acc.length ≤ n → seq < 4294967296 →
    (emitLoop spp seq acc cap).frames.length = acc.length / spp
    ∧ ((emitLoop spp seq acc cap).frames.map PcmFrame.payload).flatten
        = encodeLE (acc.take (spp * (acc.length / spp)))
    ∧ (emitLoop spp seq acc cap).acc = acc.drop (spp * (acc.length / spp))
    ∧ (emitLoop spp seq acc cap).frames.map PcmFrame.seq
        = (List.range (acc.length / spp)).map (fun i => (seq + i) % 4294967296)
    ∧ (emitLoop spp seq acc cap).seq = (seq + acc.length / spp) % 4294967296
    ∧ (∀ f ∈ (emitLoop spp seq acc cap).frames, f.payload.length = spp * 2) := by
  intro n
  induction n with
  | zero =>
    intro seq acc cap hn hseq
    have hempty : acc.length = 0 := by omega
    have h : ¬(0 < spp ∧ spp ≤ acc.length) := by omega
    rw [emitLoop, dif_neg h]
    simp [hempty, Nat.div_eq_of_lt hspp, Nat.mod_eq_of_lt hseq, encodeLE,
      List.eq_nil_of_length_eq_zero hempty]
  | succ n IH =>
    intro seq acc cap hn hseq
    by_cases h : 0 < spp ∧ spp ≤ acc.length
    · have hle : spp ≤ acc.length := h.2
      have hdiv : acc.length / spp = (acc.length - spp) / spp + 1 :=
        Nat.div_eq_sub_div hspp hle
      have hsnd : (popPayload spp acc).2 = acc.drop spp := popPayload_snd ..
      have hfst : (popPayload spp acc).1 = encodeLE (acc.take spp) :=
        popPayload_fst_of_le spp acc hle
      have hlen : (popPayload spp acc).2.length = acc.length - spp := by
        rw [hsnd, List.length_drop]
      have hseq2 : (seq + 1) % 4294967296 < 4294967296 := Nat.mod_lt _ (by omega)
      obtain ⟨ihA, ihB, ihC, ihD, ihE, ihF⟩ :=
        IH ((seq + 1) % 4294967296) (popPayload spp acc).2
          (consume_capture_time cap spp).2 (by omega) hseq2
      rw [emitLoop, dif_pos h]
      simp only [List.length_cons, List.map_cons, List.flatten_cons, hlen] at *
      set k := (acc.length - spp) / spp with hk
      refine ⟨by omega, ?_, ?_, ?_, ?_, ?_⟩
      · rw [ihB, hfst, hsnd, hdiv, Nat.mul_succ, Nat.add_comm (spp * k) spp,
          List.take_add, encodeLE_append]
      · rw [ihC, hsnd, List.drop_drop, hdiv, Nat.mul_succ, Nat.add_comm (spp * k) spp]
      · rw [ihD, hdiv, List.range_succ_eq_map, List.map_cons, List.map_map]
        refine List.cons_eq_cons.mpr ⟨by omega, ?_⟩
        apply List.map_congr_left
        intro a _
        simp only [Function.comp_apply, Nat.succ_eq_add_one]
        omega
      · rw [ihE, hdiv]
        omega
      · intro f hf
        rcases List.mem_cons.mp hf with rfl | hf
        · show (popPayload spp acc).1.length = spp * 2
          rw [hfst, encodeLE_length, List.length_take]
          omega
        · exact ihF f hf
    · have hlt : acc.length < spp := by omega
      have hdiv : acc.length / spp = 0 := Nat.div_eq_of_lt hlt
      rw [emitLoop, dif_neg h]
      simp [hdiv, Nat.mod_eq_of_lt hseq, encodeLE]

theorem emitLoop_spec (spp seq : Nat) (acc : List Int) (cap : List (Nat × Nat))
    (hspp : 0 < spp) (hseq : seq < 4294967296) :
    (emitLoop spp seq acc cap).frames.length = acc.length / spp
    ∧ ((emitLoop spp seq acc cap).frames.map PcmFrame.payload).flatten
        = encodeLE (acc.take (spp * (acc.length / spp)))
    ∧ (emitLoop spp seq acc cap).acc = acc.drop (spp * (acc.length / spp))
    ∧ (emitLoop spp seq acc cap).frames.map PcmFrame.seq
        = (List.range (acc.length / spp)).map (fun i => (seq + i) % 4294967296)
    ∧ (emitLoop spp seq acc cap).seq = (seq + acc.length / spp) % 4294967296
    ∧ (∀ f ∈ (emitLoop spp seq acc cap).frames, f.payload.length = spp * 2) :=
  emitLoop_spec_aux spp hspp acc.length seq acc cap le_rfl hseq

/-- Run-level characterisation of `send_loop`: from a state whose residue is
shorter than one packet, processing `chunks` emits `⌊|all| / spp⌋` frames
(`all` being the residue followed by every received sample in order), whose
payloads concatenate to the little-endian encoding of the consumed prefix of
`all`; the remainder stays in the accumulator, sequence numbers are
consecutive mod 2^32, and every payload has `spp * 2` bytes. -/
theorem send_loop_spec (spp : Nat) (hspp : 0 < spp) :
    ∀ (chunks : List CaptureChunk) (st : SendState),
    st.seq < 4294967296 → st.acc.length < spp →
    (send_loop spp st chunks).2.length
        = (st.acc ++ (chunks.map CaptureChunk.samples).flatten).length / spp
    ∧ ((send_loop spp st chunks).2.map PcmFrame.payload).flatten
        = encodeLE ((st.acc ++ (chunks.map CaptureChunk.samples).flatten).take
            (spp * ((st.acc ++ (chunks.map CaptureChunk.samples).flatten).length / spp)))
    ∧ (send_loop spp st chunks).1.acc
        = (st.acc ++ (chunks.map CaptureChunk.samples).flatten).drop
            (spp * ((st.acc ++ (chunks.map CaptureChunk.samples).flatten).length / spp))
    ∧ (send_loop spp st chunks).2.map PcmFrame.seq
        = (List.range ((st.acc ++ (chunks.map CaptureChunk.samples).flatten).length / spp)).map
            (fun i => (st.seq + i) % 4294967296)
    ∧ (send_loop spp st chunks).1.seq
        = (st.seq + (st.acc ++ (chunks.map CaptureChunk.samples).flatten).length / spp)
            % 4294967296
    ∧ (∀ f ∈ (send_loop spp st chunks).2, f.payload.length = spp * 2) := by
  intro chunks
  induction chunks with
  | nil =>
    intro st hseq hres
    have hdiv : st.acc.length / spp = 0 := Nat.div_eq_of_lt hres
    simp [send_loop, hdiv, Nat.mod_eq_of_lt hseq, encodeLE]
  | cons c cs IH =>
    intro st hseq hres
    obtain ⟨eA, eB, eC, eD, eE, eF⟩ :=
      emitLoop_spec spp st.seq (st.acc ++ c.samples)
        (if 0 < c.samples.length then st.acc_capture ++ [(c.samples.length, c.captured_at)]
         else st.acc_capture) hspp hseq
    set acc1 := st.acc ++ c.samples with hacc1
    set r := emitLoop spp st.seq acc1
        (if 0 < c.samples.length then st.acc_capture ++ [(c.samples.length, c.captured_at)]
         else st.acc_capture) with hr
    set a := acc1.length with ha
    set k1 := a / spp with hk1
    have hresid : r.acc.length = a % spp := by
      rw [eC, List.length_drop, hk1]
      have h0 := Nat.div_add_mod a spp
      omega
    have hres2 : r.acc.length < spp := by
      rw [hresid]; exact Nat.mod_lt _ hspp
    have hseq2 : r.seq < 4294967296 := by rw [eE]; exact Nat.mod_lt _ (by omega)
    obtain ⟨iA, iB, iC, iD, iE, iF⟩ := IH ⟨r.seq, r.acc, r.acc_capture⟩ hseq2 hres2
    set b := ((cs.map CaptureChunk.samples).flatten).length with hb
    have hall : st.acc ++ ((c :: cs).map CaptureChunk.samples).flatten
        = acc1 ++ (cs.map CaptureChunk.samples).flatten := by
      simp [hacc1, List.append_assoc]
    have hlenall : (acc1 ++ (cs.map CaptureChunk.samples).flatten).length
        = a + b := by simp [ha, hb]
    have hkey : (a + b) / spp = k1 + (a % spp + b) / spp := by
      conv_lhs => rw [← Nat.div_add_mod a spp]
      rw [Nat.add_assoc, Nat.mul_add_div hspp]
    set k2 := (a % spp + b) / spp with hk2
    have hmulle : spp * k1 ≤ a := Nat.mul_div_le a spp
    have hdropall : (acc1 ++ (cs.map CaptureChunk.samples).flatten).drop (spp * k1)
        = r.acc ++ (cs.map CaptureChunk.samples).flatten := by
      rw [List.drop_append_of_le_length (by omega : spp * k1 ≤ acc1.length), eC]
    have hlen2 : (r.acc ++ (cs.map CaptureChunk.samples).flatten).length
        = a % spp + b := by simp [hresid, hb]
    have hsl : send_loop spp st (c :: cs)
        = ((send_loop spp ⟨r.seq, r.acc, r.acc_capture⟩ cs).1,
            r.frames ++ (send_loop spp ⟨r.seq, r.acc, r.acc_capture⟩ cs).2) := by
      simp [send_loop, processChunk, ← hacc1, ← hr]
    dsimp only at iA iB iC iD iE iF
    rw [hlen2, ← hk2] at iA iB iC iD iE
    rw [hsl, hall, hlenall, hkey]
    refine ⟨?_, ?_, ?_, ?_, ?_, ?_⟩
    · simp only [List.length_append, eA, iA]
    · rw [List.map_append, List.flatten_append, eB, iB, Nat.mul_add, List.take_add,
        List.take_append_of_le_length (by omega : spp * k1 ≤ acc1.length), hdropall,
        encodeLE_append]
    · rw [iC, ← hdropall, List.drop_drop, ← Nat.mul_add]
    · rw [List.map_append, eD, iD, List.range_add]
      simp only [List.map_append, List.map_map]
      congr 1
      apply List.map_congr_left
      intro i _
      simp only [Function.comp_apply]
      omega
    · rw [iE]
      omega
    · intro f hf
      rcases List.mem_append.mp hf with hf | hf
      · exact eF f hf
      · exact iF f hf

/-- C1: sample conservation of the repacketizer.  For every sequence of
received chunks, `send_loop` starting from the initial state emits exactly
`⌊S / samples_per_packet⌋` packets (`S` the total number of received
samples), the concatenation of their payloads is the little-endian two-byte
encoding of the consumed prefix of the sample stream (no duplication, loss or
reordering), the `S mod samples_per_packet` remainder stays in the
accumulator as residue, and when `samples_per_packet` divides `S` the payload
concatenation is the encoding of the whole stream and the residue is empty. -/
theorem sample_conservation (spp : Nat) (chunks : List CaptureChunk) (hspp : 0 < spp) :
    (send_loop spp initState chunks).2.length
        = ((chunks.map CaptureChunk.samples).flatten).length / spp
    ∧ ((send_loop spp initState chunks).2.map PcmFrame.payload).flatten
        = encodeLE (((chunks.map CaptureChunk.samples).flatten).take
            (spp * (((chunks.map CaptureChunk.samples).flatten).length / spp)))
    ∧ (send_loop spp initState chunks).1.acc
        = ((chunks.map CaptureChunk.samples).flatten).drop
            (spp * (((chunks.map CaptureChunk.samples).flatten).length / spp))
    ∧ (spp ∣ ((chunks.map CaptureChunk.samples).flatten).length →
        ((send_loop spp initState chunks).2.map PcmFrame.payload).flatten
            = encodeLE ((chunks.map CaptureChunk.samples).flatten)
        ∧ (send_loop spp initState chunks).1.acc = []) := by
  obtain ⟨A, B, C, D, E, F⟩ :=
    send_loop_spec spp hspp chunks initState (by simp [initState])
      (by simpa [initState] using hspp)
  simp only [show initState.acc = ([] : List Int) from rfl, List.nil_append] at A B C
  refine ⟨A, B, C, ?_⟩
  intro hdvd
  have hfull : spp * (((chunks.map CaptureChunk.samples).flatten).length / spp)
      = ((chunks.map CaptureChunk.samples).flatten).length :=
    Nat.mul_div_cancel' hdvd
  rw [hfull] at B C
  exact ⟨by rw [B, List.take_length], by rw [C, List.drop_length]⟩

theorem sample_conservation_witness :
    0 < 2
    ∧ ((send_loop 2 initState [⟨[1, 2, 3], 10⟩, ⟨[4], 20⟩]).2.map PcmFrame.payload).flatten
        = encodeLE (([⟨[1, 2, 3], 10⟩, ⟨[4], 20⟩].map CaptureChunk.samples).flatten)
    ∧ (send_loop 2 initState [⟨[1, 2, 3], 10⟩, ⟨[4], 20⟩]).1.acc = [] :=
  ⟨by decide,
    ((sample_conservation 2 [⟨[1, 2, 3], 10⟩, ⟨[4], 20⟩] (by decide)).2.2.2 (by decide)).1,
    ((sample_conservation 2 [⟨[1, 2, 3], 10⟩, ⟨[4], 20⟩] (by decide)).2.2.2 (by decide)).2⟩

/-- C3: sequence monotonicity.  Starting from the initial state (`seq = 0`),
the emitted packets of a run carry sequence numbers `0, 1, …, K−1` taken
modulo 2^32 (so the counter increases by exactly 1 per emitted packet, with
wraparound at 2^32), and the first emitted packet, when one exists, has
sequence number 0. -/
theorem sequence_monotonicity (spp : Nat) (chunks : List CaptureChunk) (hspp : 0 < spp) :
    (send_loop spp initState chunks).2.map PcmFrame.seq
        = (List.range (send_loop spp initState chunks).2.length).map
            (fun i => i % 4294967296)
    ∧ (∀ f, (send_loop spp initState chunks).2.head? = some f → f.seq = 0) := by
  obtain ⟨A, B, C, D, E, F⟩ :=
    send_loop_spec spp hspp chunks initState (by simp [initState])
      (by simpa [initState] using hspp)
  simp only [show initState.acc = ([] : List Int) from rfl,
    show initState.seq = 0 from rfl, List.nil_append] at A D
  have hmap : (send_loop spp initState chunks).2.map PcmFrame.seq
      = (List.range (send_loop spp initState chunks).2.length).map
          (fun i => i % 4294967296) := by
    rw [D, A]
    apply List.map_congr_left
    intro i _
    omega
  refine ⟨hmap, ?_⟩
  intro f hf
  have h1 : ((send_loop spp initState chunks).2.map PcmFrame.seq).head?
      = some f.seq := by
    rw [List.head?_map, hf]
    rfl
  have h2 := congrArg List.head? hmap
  rw [h1] at h2
  rcases hlen : (send_loop spp initState chunks).2.length with _ | n
  · rw [List.length_eq_zero] at hlen
    rw [hlen] at hf
    exact Option.noConfusion hf
  · rw [hlen, List.range_succ_eq_map, List.map_cons, List.head?_cons] at h2
    have h3 : f.seq = 0 % 4294967296 := Option.some.inj h2
    simpa using h3

theorem sequence_monotonicity_witness :
    0 < 2
    ∧ (send_loop 2 initState [⟨[1, 2, 3], 10⟩, ⟨[4], 20⟩]).2.map PcmFrame.seq
        = (List.range (send_loop 2 initState [⟨[1, 2, 3], 10⟩, ⟨[4], 20⟩]).2.length).map
            (fun i => i % 4294967296) :=
  ⟨by decide, (sequence_monotonicity 2 [⟨[1, 2, 3], 10⟩, ⟨[4], 20⟩] (by decide)).1⟩

/-- The byte string `build_packet` produces on success (header fields in
declaration order, then the payload verbatim). -/
def packet_bytes (seq sample_rate channels samples_per_ch send_time_us : Nat)
    (payload : List Nat) : List Nat :=
  [65, 85, 68, 48, 1, 0, channels % 256, 0] ++ le4 sample_rate ++ le4 seq ++
    le8 send_time_us ++ le2 samples_per_ch ++ le2 payload.length ++ payload

theorem build_packet_eq_ok (seq sr ch spc t : Nat) (payload : List Nat)
    (hp : payload.length ≤ 65535) :
    build_packet seq sr ch spc t payload
      = Except.ok (packet_bytes seq sr ch spc t payload) := by
  rw [build_packet, if_neg (by omega)]
  simp [packet_bytes]

theorem packet_bytes_parse (seq sr ch spc t : Nat) (payload : List Nat) :
    parse_magic (packet_bytes seq sr ch spc t payload) = [65, 85, 68, 48]
    ∧ parse_version (packet_bytes seq sr ch spc t payload) = 1
    ∧ parse_codec (packet_bytes seq sr ch spc t payload) = 0
    ∧ parse_channels (packet_bytes seq sr ch spc t payload) = ch % 256
    ∧ parse_reserved (packet_bytes seq sr ch spc t payload) = 0
    ∧ parse_sample_rate (packet_bytes seq sr ch spc t payload) = sr % 4294967296
    ∧ parse_seq (packet_bytes seq sr ch spc t payload) = seq % 4294967296
    ∧ parse_send_time (packet_bytes seq sr ch spc t payload)
        = t % 18446744073709551616
    ∧ parse_samples_per_ch (packet_bytes seq sr ch spc t payload) = spc % 65536
    ∧ parse_payload_len (packet_bytes seq sr ch spc t payload)
        = payload.length % 65536
    ∧ (packet_bytes seq sr ch spc t payload).drop 28 = payload
    ∧ (packet_bytes seq sr ch spc t payload).length = 28 + payload.length := by
  refine ⟨?_, ?_, ?_, ?_, ?_, ?_, ?_, ?_, ?_, ?_, ?_, ?_⟩
  · simp [parse_magic, packet_bytes]
  · simp [parse_version, parse_field, packet_bytes, le4, le8, le2, leDec]
  · simp [parse_codec, parse_field, packet_bytes, le4, le8, le2, leDec]
  · simp [parse_channels, parse_field, packet_bytes, le4, le8, le2, leDec]
  · simp [parse_reserved, parse_field, packet_bytes, le4, le8, le2, leDec]
  · simp [parse_sample_rate, parse_field, packet_bytes, le4, le8, le2, leDec]
    omega
  · simp [parse_seq, parse_field, packet_bytes, le4, le8, le2, leDec]
    omega
  · simp [parse_send_time, parse_field, packet_bytes, le4, le8, le2, leDec]
    omega
  · simp [parse_samples_per_ch, parse_field, packet_bytes, le4, le8, le2, leDec]
    omega
  · simp [parse_payload_len, parse_field, packet_bytes, le4, le8, le2, leDec]
    omega
  · simp [packet_bytes, le4, le8, le2]
  · simp [packet_bytes, le4, le8, le2]
    omega

/-- C4: header layout round-trip.  For every valid input (`channels` a `u8`
value, `sample_rate`/`seq` `u32` values, `samples_per_channel` a `u16` value,
a `u64` clock value, payload of at most 65 535 bytes), `build_packet` returns
the buffer with magic `AUD0` at offset 0, version 1 at offset 4, codec 0 at
offset 5, channels at offset 6, 0 at offset 7, the 4-byte LE sample rate at
offset 8, the 4-byte LE sequence at offset 12, the 8-byte LE send time at
offset 16, the 2-byte LE samples-per-channel at offset 24, the 2-byte LE
payload length at offset 26, then the payload verbatim; parsing the header
recovers exactly the input field values. -/
theorem header_round_trip (seq sr ch spc t : Nat) (payload : List Nat)
    (hch : ch < 256) (hsr : sr < 4294967296) (hseq : seq < 4294967296)
    (hspc : spc < 65536) (ht : t < 18446744073709551616)
    (hp : payload.length ≤ 65535) :
    build_packet seq sr ch spc t payload
      = Except.ok ([65, 85, 68, 48, 1, 0, ch, 0] ++ le4 sr ++ le4 seq ++ le8 t
          ++ le2 spc ++ le2 payload.length ++ payload)
    ∧ ∀ pkt, build_packet seq sr ch spc t payload = Except.ok pkt →
        parse_magic pkt = [65, 85, 68, 48]
        ∧ parse_version pkt = 1
        ∧ parse_codec pkt = 0
        ∧ parse_channels pkt = ch
        ∧ parse_reserved pkt = 0
        ∧ parse_sample_rate pkt = sr
        ∧ parse_seq pkt = seq
        ∧ parse_send_time pkt = t
        ∧ parse_samples_per_ch pkt = spc
        ∧ parse_payload_len pkt = payload.length
        ∧ pkt.drop 28 = payload := by
  have hb := build_packet_eq_ok seq sr ch spc t payload hp
  have hpb : packet_bytes seq sr ch spc t payload
      = [65, 85, 68, 48, 1, 0, ch, 0] ++ le4 sr ++ le4 seq ++ le8 t
          ++ le2 spc ++ le2 payload.length ++ payload := by
    simp [packet_bytes, Nat.mod_eq_of_lt hch]
  obtain ⟨p1, p2, p3, p4, p5, p6, p7, p8, p9, p10, p11, _⟩ :=
    packet_bytes_parse seq sr ch spc t payload
  refine ⟨by rw [hb, hpb], ?_⟩
  intro pkt hpkt
  rw [hb] at hpkt
  have hpe : pkt = packet_bytes seq sr ch spc t payload := (Except.ok.inj hpkt).symm
  subst hpe
  exact ⟨p1, p2, p3, by rw [p4, Nat.mod_eq_of_lt hch], p5,
    by rw [p6, Nat.mod_eq_of_lt hsr], by rw [p7, Nat.mod_eq_of_lt hseq],
    by rw [p8, Nat.mod_eq_of_lt ht], by rw [p9, Nat.mod_eq_of_lt hspc],
    by rw [p10, Nat.mod_eq_of_lt (by omega : payload.length < 65536)], p11⟩

theorem header_round_trip_witness :
    build_packet 7 48000 2 240 1000 [1, 2]
      = Except.ok ([65, 85, 68, 48, 1, 0, 2, 0] ++ le4 48000 ++ le4 7 ++ le8 1000
          ++ le2 240 ++ le2 ([1, 2] : List Nat).length ++ [1, 2]) :=
  (header_round_trip 7 48000 2 240 1000 [1, 2] (by decide) (by decide) (by decide)
    (by decide) (by decide) (by decide)).1

/-- C2: frame sizing.  `samples_per_channel` equals
`⌊sample_rate * frame_ms / 1000⌋` for every rate and `frame_ms ∈ [1, 20]`;
in a run with `samples_per_packet = samples_per_channel * channels`, every
emitted packet's payload has `samples_per_channel * channels * 2` bytes, and
whenever that payload fits a packet, the built packet's samples-per-channel
header field decodes to the same `samples_per_channel` value for every packet
of the run (the value is a run constant: it is computed once in `main` and
passed unchanged to every `build_packet` call). -/
theorem frame_sizing (sample_rate frame_ms channels : Nat) (chunks : List CaptureChunk)
    (h1 : 1 ≤ frame_ms) (h2 : frame_ms ≤ 20)
    (hspp : 0 < samples_per_channel sample_rate frame_ms * channels) :
    samples_per_channel sample_rate frame_ms = sample_rate * frame_ms / 1000
    ∧ ∀ f ∈ (send_loop (samples_per_channel sample_rate frame_ms * channels)
          initState chunks).2,
        f.payload.length = samples_per_channel sample_rate frame_ms * channels * 2
        ∧ (f.payload.length ≤ 65535 → ∀ t,
            build_packet f.seq sample_rate channels
                (samples_per_channel sample_rate frame_ms) t f.payload
              = Except.ok (packet_bytes f.seq sample_rate channels
                  (samples_per_channel sample_rate frame_ms) t f.payload)
            ∧ parse_samples_per_ch (packet_bytes f.seq sample_rate channels
                (samples_per_channel sample_rate frame_ms) t f.payload)
              = samples_per_channel sample_rate frame_ms) := by
  refine ⟨rfl, ?_⟩
  intro f hf
  obtain ⟨A, B, C, D, E, F⟩ :=
    send_loop_spec (samples_per_channel sample_rate frame_ms * channels) hspp chunks
      initState (by simp [initState]) (by simpa [initState] using hspp)
  have hlen := F f hf
  refine ⟨hlen, ?_⟩
  intro hfit t
  have hch1 : 1 ≤ channels := by
    rcases Nat.eq_zero_or_pos channels with h0 | h0
    · rw [h0, Nat.mul_zero] at hspp
      exact absurd hspp (by omega)
    · exact h0
  have hspc16 : samples_per_channel sample_rate frame_ms < 65536 := by
    have hmono : samples_per_channel sample_rate frame_ms * 1 * 2
        ≤ samples_per_channel sample_rate frame_ms * channels * 2 :=
      Nat.mul_le_mul_right 2
        (Nat.mul_le_mul_left (samples_per_channel sample_rate frame_ms) hch1)
    rw [Nat.mul_one] at hmono
    omega
  refine ⟨build_packet_eq_ok _ _ _ _ _ _ (by omega), ?_⟩
  have hparse := (packet_bytes_parse f.seq sample_rate channels
    (samples_per_channel sample_rate frame_ms) t f.payload).2.2.2.2.2.2.2.2.1
  rw [hparse, Nat.mod_eq_of_lt hspc16]

theorem frame_sizing_witness :
    1 ≤ 5 ∧ samples_per_channel 48000 5 = 48000 * 5 / 1000 :=
  ⟨by decide, (frame_sizing 48000 5 2 [] (by decide) (by decide) (by decide)).1⟩

/-- C6 as stated is false on the code: a payload of exactly 65 535 bytes is
accepted by `build_packet` (only payloads strictly larger than 65 535 fail),
and the returned packet then has 28 + 65 535 = 65 563 bytes, exceeding the
claimed 65 535-byte bound on the total size. -/
theorem packet_size_counterexample :
    (build_packet 0 0 0 0 0 (List.replicate 65535 0)).map List.length
      = Except.ok 65563
    ∧ ¬(65563 ≤ 65535) := by
  have hlen : (List.replicate 65535 (0 : Nat)).length = 65535 :=
    List.length_replicate ..
  constructor
  · rw [build_packet_eq_ok 0 0 0 0 0 (List.replicate 65535 0)
      (by rw [hlen])]
    show Except.ok (packet_bytes 0 0 0 0 0 (List.replicate 65535 0)).length
      = Except.ok 65563
    rw [(packet_bytes_parse 0 0 0 0 0 (List.replicate 65535 0)).2.2.2.2.2.2.2.2.2.2.2,
      hlen]
  · omega

/-- C6 (amended): `build_packet` fails exactly when the payload exceeds
65 535 bytes (given a valid system clock), and every packet it returns
consists of the 28-byte header followed by the payload verbatim, hence has
`28 + payload length ≤ 65 563` bytes; the 65 535-byte bound applies to the
payload alone, not to the total packet size. -/
theorem packet_size_contract (seq sr ch spc t : Nat) (payload : List Nat) :
    (payload.length ≤ 65535 →
      build_packet seq sr ch spc t payload
        = Except.ok (packet_bytes seq sr ch spc t payload)
      ∧ (packet_bytes seq sr ch spc t payload).length = 28 + payload.length
      ∧ ((packet_bytes seq sr ch spc t payload).take 28).length = 28
      ∧ (packet_bytes seq sr ch spc t payload).drop 28 = payload
      ∧ (packet_bytes seq sr ch spc t payload).length ≤ 65563)
    ∧ (65535 < payload.length →
        build_packet seq sr ch spc t payload = Except.error "payload too large") := by
  obtain ⟨_, _, _, _, _, _, _, _, _, _, p11, p12⟩ :=
    packet_bytes_parse seq sr ch spc t payload
  constructor
  · intro hp
    refine ⟨build_packet_eq_ok seq sr ch spc t payload hp, p12, ?_, p11, by omega⟩
    rw [List.length_take, p12]
    omega
  · intro hp
    rw [build_packet, if_pos (by omega)]

theorem packet_size_contract_witness :
    build_packet 1 48000 2 240 0 [5]
      = Except.ok (packet_bytes 1 48000 2 240 0 [5])
    ∧ (packet_bytes 1 48000 2 240 0 [5]).length = 28 + ([5] : List Nat).length :=
  ⟨((packet_size_contract 1 48000 2 240 0 [5]).1 (by decide)).1,
    ((packet_size_contract 1 48000 2 240 0 [5]).1 (by decide)).2.1⟩

/-- C7: stream-sink wire format.  For every packet handed to the TCP sink,
the bytes put on the wire are the 2-byte little-endian packet length followed
by the packet bytes; a packet longer than 65 535 bytes is a fatal error; and
a 988-byte packet in particular is prefixed by exactly `0xDC 0x03`
(= 220, 3). -/
theorem stream_sink_wire_format (packet : List Nat) :
    (packet.length ≤ 65535 →
      stream_sink_wire packet = Except.ok (le2 packet.length ++ packet))
    ∧ (65535 < packet.length →
      stream_sink_wire packet
        = Except.error "packet too large for TCP length prefix")
    ∧ (packet.length = 988 →
      stream_sink_wire packet = Except.ok (220 :: 3 :: packet)) := by
  refine ⟨?_, ?_, ?_⟩
  · intro h
    rw [stream_sink_wire, if_neg (by omega)]
  · intro h
    rw [stream_sink_wire, if_pos h]
  · intro h
    rw [stream_sink_wire, if_neg (by omega), h]
    simp [le2]

theorem stream_sink_wire_format_witness :
    (List.replicate 988 (0 : Nat)).length = 988
    ∧ stream_sink_wire (List.replicate 988 0)
        = Except.ok (220 :: 3 :: List.replicate 988 0) :=
  ⟨List.length_replicate ..,
    (stream_sink_wire_format (List.replicate 988 0)).2.2 (List.length_replicate ..)⟩

/-- C5: capture-time consumption.  `consume_capture_time` returns the
`captured_at` of the front record (`none` exactly when the queue is empty, in
which case `send_loop` skips the latency sample), and updates the queue by
popping records, pushing back `(count − n, captured_at)` when the front
record exceeds what remains to consume and subtracting-and-continuing
otherwise; in particular, a chunk of `samples_per_packet − 1` samples at `T0`
followed by a one-sample chunk at `T1` yields a single packet whose latency
reference is `T0`. -/
theorem capture_time_consumption :
    (∀ (q : List (Nat × Nat)) (n : Nat),
      (consume_capture_time q n).1 = q.head?.map Prod.snd)
    ∧ (∀ n, consume_capture_time [] n = (none, []))
    ∧ (∀ (count t : Nat) (rest : List (Nat × Nat)) (n : Nat), 0 < n → n < count →
        consume_capture_time ((count, t) :: rest) n
          = (some t, (count - n, t) :: rest))
    ∧ (∀ (count t : Nat) (rest : List (Nat × Nat)) (n : Nat), 0 < n → count ≤ n →
        (consume_capture_time ((count, t) :: rest) n).2 = cctLoop rest (n - count))
    ∧ (∀ (spp : Nat) (s1 s2 : List Int) (T0 T1 : Nat),
        2 ≤ spp → s1.length = spp - 1 → s2.length = 1 →
        (send_loop spp initState [⟨s1, T0⟩, ⟨s2, T1⟩]).2.map PcmFrame.capture_time
          = [some T0]) := by
  refine ⟨fun q n => rfl, ?_, ?_, ?_, ?_⟩
  · intro n
    cases n <;> rfl
  · intro count t rest n hn hlt
    cases n with
    | zero => omega
    | succ m =>
      rw [consume_capture_time, cctLoop, if_pos hlt]
      rfl
  · intro count t rest n hn hle
    cases n with
    | zero => omega
    | succ m =>
      rw [consume_capture_time]
      show cctLoop ((count, t) :: rest) (m + 1) = cctLoop rest (m + 1 - count)
      rw [cctLoop, if_neg (by omega)]
  · intro spp s1 s2 T0 T1 h2spp hs1 hs2
    have hlen12 : (s1 ++ s2).length = spp := by
      rw [List.length_append, hs1, hs2]; omega
    have e1 : emitLoop spp 0 s1 [(s1.length, T0)] = ⟨0, s1, [(s1.length, T0)], []⟩ := by
      rw [emitLoop, dif_neg (by omega)]
    have hpp2 : (popPayload spp (s1 ++ s2)).2.length = 0 := by
      rw [popPayload_snd, List.length_drop, hlen12]
      omega
    have e2 : emitLoop spp ((0 + 1) % 4294967296) (popPayload spp (s1 ++ s2)).2
        (cctLoop [(s1.length, T0), (s2.length, T1)] spp)
        = ⟨(0 + 1) % 4294967296, (popPayload spp (s1 ++ s2)).2,
            cctLoop [(s1.length, T0), (s2.length, T1)] spp, []⟩ := by
      rw [emitLoop, dif_neg (by omega)]
    have e3 : emitLoop spp 0 (s1 ++ s2) [(s1.length, T0), (s2.length, T1)]
        = ⟨(0 + 1) % 4294967296, (popPayload spp (s1 ++ s2)).2,
            cctLoop [(s1.length, T0), (s2.length, T1)] spp,
            [⟨0, some T0, (popPayload spp (s1 ++ s2)).1⟩]⟩ := by
      rw [emitLoop, dif_pos ⟨by omega, by omega⟩]
      simp only [consume_capture_time, List.head?_cons, e2]
      rfl
    simp only [send_loop, processChunk, initState, List.nil_append]
    rw [if_pos (by omega : 0 < s1.length)]
    simp only [List.nil_append] at e1 ⊢
    rw [e1]
    simp only
    rw [if_pos (by omega : 0 < s2.length)]
    simp only [List.cons_append, List.nil_append] at e3 ⊢
    rw [e3]
    simp

/-- C8: drop discipline of the capture queue.  `enqueue_audio_chunk` is a
total function (it never blocks, mirroring `try_send`): an empty chunk is
skipped entirely (no counter changes, no enqueue, whatever the channel
state); a non-empty chunk offered to a full queue is discarded with
`capture_drops` incremented by exactly 1, `captured_chunks` unchanged and the
queue unchanged (queue-full is an ordinary return, not an error); a non-empty
chunk offered to a non-full queue is appended with `captured_chunks`
incremented by exactly 1 and `capture_drops` unchanged. -/
theorem drop_discipline (stats : SenderStats) (queue : List CaptureChunk)
    (chunk : List Int) (now : Nat) :
    (chunk = [] → ∀ connected,
      enqueue_audio_chunk stats queue connected chunk now = (stats, queue))
    ∧ (chunk ≠ [] → queueCapacity ≤ queue.length →
        (enqueue_audio_chunk stats queue true chunk now).1.capture_drops
            = stats.capture_drops + 1
        ∧ (enqueue_audio_chunk stats queue true chunk now).1.captured_chunks
            = stats.captured_chunks
        ∧ (enqueue_audio_chunk stats queue true chunk now).2 = queue)
    ∧ (chunk ≠ [] → queue.length < queueCapacity →
        (enqueue_audio_chunk stats queue true chunk now).1.captured_chunks
            = stats.captured_chunks + 1
        ∧ (enqueue_audio_chunk stats queue true chunk now).1.capture_drops
            = stats.capture_drops
        ∧ (enqueue_audio_chunk stats queue true chunk now).2
            = queue ++ [⟨chunk, now⟩]) := by
  refine ⟨?_, ?_, ?_⟩
  · intro h connected
    simp [enqueue_audio_chunk, h]
  · intro h hfull
    simp [enqueue_audio_chunk, h, hfull]
  · intro h hroom
    simp [enqueue_audio_chunk, h, Nat.not_le.mpr hroom]

theorem capture_time_consumption_witness :
    (send_loop 2 initState [⟨[7], 100⟩, ⟨[9], 200⟩]).2.map PcmFrame.capture_time
      = [some 100] :=
  capture_time_consumption.2.2.2.2 2 [7] [9] 100 200 (by decide) (by decide) (by decide)

theorem drop_discipline_witness :
    (enqueue_audio_chunk ⟨0, 0, 0, 0, 0⟩
        (List.replicate 512 (⟨[1], 0⟩ : CaptureChunk)) true [5] 3).1.capture_drops
      = (⟨0, 0, 0, 0, 0⟩ : SenderStats).capture_drops + 1
    ∧ (enqueue_audio_chunk ⟨0, 0, 0, 0, 0⟩
        (List.replicate 512 (⟨[1], 0⟩ : CaptureChunk)) true [5] 3).1.captured_chunks
      = (⟨0, 0, 0, 0, 0⟩ : SenderStats).captured_chunks
    ∧ (enqueue_audio_chunk ⟨0, 0, 0, 0, 0⟩
        (List.replicate 512 (⟨[1], 0⟩ : CaptureChunk)) true [5] 3).2
      = List.replicate 512 (⟨[1], 0⟩ : CaptureChunk) :=
  (drop_discipline ⟨0, 0, 0, 0, 0⟩ (List.replicate 512 (⟨[1], 0⟩ : CaptureChunk)) [5] 3).2.1
    (by decide) (by rw [List.length_replicate]; exact Nat.le_refl 512)

/-- C9: sample-format conversions.  The unsigned-16 converter maps every
16-bit input `v` to `v − 32768` (so 0 ↦ −32768, 32768 ↦ 0, 65535 ↦ 32767).
The float converter clamps to `[−1, 1]`, multiplies by 32767 in `f32` and
truncates toward zero: every input strictly above +1 (such as +2) maps to
+32767, every input strictly below −1 (such as −2) maps to −32767, 0 maps
to 0, and the `f32` value of `1.0 / 32767.0` maps to 1 (the `f32` multiply
rounds `(2^30 − 1)/2^30` up to exactly 1.0). -/
theorem sample_format_conversions :
    (∀ v : Nat, v ≤ 65535 → cvtU16 v = (v : Int) - 32768)
    ∧ cvtU16 0 = -32768
    ∧ cvtU16 32768 = 0
    ∧ cvtU16 65535 = 32767
    ∧ cvtF32 (-2) 1 = -32767
    ∧ cvtF32 2 1 = 32767
    ∧ cvtF32 0 1 = 0
    ∧ fdiv32 1 32767 = (8388864, 274877906944)
    ∧ cvtF32 (fdiv32 1 32767).1 (fdiv32 1 32767).2 = 1
    ∧ (∀ (num : Int) (den : Nat), (den : Int) < num → cvtF32 num den = 32767)
    ∧ (∀ (num : Int) (den : Nat), num < -(den : Int) → cvtF32 num den = -32767) := by
  refine ⟨?_, by decide, by decide, by decide, by decide, by decide, by decide,
    by decide, by decide, ?_, ?_⟩
  · intro v hv
    rw [cvtU16, wrap_i16]
    omega
  · intro num den h
    rw [cvtF32, clampUnit, if_pos h]
    decide
  · intro num den h
    have hnot : ¬((den : Int) < num) := by omega
    rw [cvtF32, clampUnit, if_neg hnot, if_pos h]
    decide

theorem sample_format_conversions_witness :
    (12345 : Nat) ≤ 65535 ∧ cvtU16 12345 = (12345 : Int) - 32768 :=
  ⟨by decide, sample_format_conversions.1 12345 (by decide)⟩

/-- C10: precedence of enumeration mode.  When `list_desktop_devices` is set,
`main` lists render devices and returns `Ok(())` (exit code 0) before the
`frame_ms` range check or the `target_ip` requirement is evaluated — an
out-of-range `frame_ms` such as 21 or a missing `target_ip` still exits 0;
those validations take effect, in that order, only when the flag is unset. -/
theorem list_devices_precedence :
    (∀ (frame_ms : Nat) (target_ip : Option String),
      main_startup true frame_ms target_ip = StartupOutcome.listDevicesExitOk)
    ∧ main_startup true 21 none = StartupOutcome.listDevicesExitOk
    ∧ main_startup true 21 (some "10.0.0.2") = StartupOutcome.listDevicesExitOk
    ∧ main_startup false 21 (some "10.0.0.2") = StartupOutcome.frameMsRangeError
    ∧ main_startup false 0 (some "10.0.0.2") = StartupOutcome.frameMsRangeError
    ∧ main_startup false 5 none = StartupOutcome.missingTargetIp
    ∧ main_startup false 5 (some "10.0.0.2") = StartupOutcome.proceed := by
  exact ⟨fun frame_ms target_ip => rfl, rfl, rfl, rfl, rfl, rfl, rfl⟩
